import Mathlib

/-!
Shallow embedding of the idOS access-grant registry
(`src/near-rs/contract/src/lib.rs`).

Modelling conventions:
* `AccountId`, `PublicKey` and `String` are all modelled as `String`
  (the contract only compares them for equality and converts the
  public key to its canonical string form when hashing).
* `EpochHeight` / the block timestamp are `Nat`.
* The NEAR host's `LookupMap` is an association list (`LMap`).
* The host's ambient context (`env::predecessor_account_id`,
  `env::block_timestamp`) is threaded as explicit `caller` / `now`
  arguments.
* A `require!`/`unwrap` panic aborts the whole call and the host
  discards every effect of the call, so each mutating entry point
  returns `Except RegError FractalRegistry`: `.ok` is the committed
  post-state, `.error` commits nothing.
* `env::keccak256` is the standard Keccak-256 permutation/sponge,
  implemented below on `Nat` lanes reduced mod 2^64.
-/

/-! ## Keccak-256 (the host's `env::keccak256`) -/

/-- 64-bit left rotation on a `Nat` lane (lanes are kept `< 2^64`). -/
def rotl64 (x n : Nat) : Nat :=
  ((x <<< n) ||| (x >>> (64 - n))) % (2 ^ 64)

/-- Bitwise complement inside 64 bits. -/
def not64 (x : Nat) : Nat := Nat.xor x (2 ^ 64 - 1)

/-- The 24 round constants of Keccak-f[1600]. -/
def keccakRC : List Nat :=
  [1, 32898, 9223372036854808714,
   9223372039002292224, 32907, 2147483649,
   9223372039002292353, 9223372036854808585, 138,
   136, 2147516425, 2147483658,
   2147516555, 9223372036854775947, 9223372036854808713,
   9223372036854808579, 9223372036854808578, 9223372036854775936,
   32778, 9223372039002259466, 9223372039002292353,
   9223372036854808704, 2147483649, 9223372039002292232]

/-- Flattened rho/pi step: output lane `j` is the source lane and left-rotation
amount, for the state laid out as a 25-element list with lane `i = x + 5*y`. -/
def keccakPiTable : List (Nat × Nat) :=
  [(0, 0), (6, 44), (12, 43), (18, 21), (24, 14), (3, 28), (9, 20), (10, 3),
   (16, 45), (22, 61), (1, 1), (7, 6), (13, 25), (19, 8), (20, 18), (4, 27),
   (5, 36), (11, 10), (17, 15), (23, 56), (2, 62), (8, 55), (14, 39), (15, 41),
   (21, 2)]

/-- Theta step of Keccak-f[1600]. -/
def keccakTheta (a : List Nat) : List Nat :=
  let lane := fun i => a.getD i 0
  let c := (List.range 5).map fun x =>
    Nat.xor (lane x) (Nat.xor (lane (x + 5))
      (Nat.xor (lane (x + 10)) (Nat.xor (lane (x + 15)) (lane (x + 20)))))
  let d := (List.range 5).map fun x =>
    Nat.xor (c.getD ((x + 4) % 5) 0) (rotl64 (c.getD ((x + 1) % 5) 0) 1)
  (List.range 25).map fun i => Nat.xor (lane i) (d.getD (i % 5) 0)

/-- Combined rho and pi steps. -/
def keccakRhoPi (a : List Nat) : List Nat :=
  keccakPiTable.map fun p => rotl64 (a.getD p.1 0) p.2

/-- Chi step. -/
def keccakChi (b : List Nat) : List Nat :=
  (List.range 25).map fun j =>
    let x := j % 5
    let y := j / 5
    Nat.xor (b.getD j 0)
      (Nat.land (not64 (b.getD ((x + 1) % 5 + 5 * y) 0)) (b.getD ((x + 2) % 5 + 5 * y) 0))

/-- One round: theta, rho/pi, chi, iota. -/
def keccakRound (a : List Nat) (rc : Nat) : List Nat :=
  match keccakChi (keccakRhoPi (keccakTheta a)) with
  | [] => []
  | a0 :: rest => Nat.xor a0 rc :: rest

/-- The full Keccak-f[1600] permutation (24 rounds). -/
def keccakF (a : List Nat) : List Nat :=
  keccakRC.foldl keccakRound a

/-- Interpret up to 8 bytes as a little-endian 64-bit lane. -/
def bytesToLane : List Nat → Nat
  | [] => 0
  | b :: rest => b + 256 * bytesToLane rest

/-- Split a byte list into the 17 lanes of a 136-byte rate block. -/
def blockLanes (fuel : Nat) (bytes : List Nat) : List Nat :=
  match fuel with
  | 0 => []
  | fuel + 1 => bytesToLane (bytes.take 8) :: blockLanes fuel (bytes.drop 8)

/-- XOR a rate block into the front of the state. -/
def absorbBlock (a : List Nat) (block : List Nat) : List Nat :=
  let lanes := blockLanes 17 block
  (List.range 25).map fun i =>
    Nat.xor (a.getD i 0) (lanes.getD i 0)

/-- Absorb the (already padded) message, 136 bytes at a time.
`fuel` bounds the number of blocks. -/
def absorb (fuel : Nat) (a : List Nat) (bytes : List Nat) : List Nat :=
  match fuel with
  | 0 => a
  | fuel + 1 =>
    match bytes with
    | [] => a
    | _ => absorb fuel (keccakF (absorbBlock a (bytes.take 136))) (bytes.drop 136)

/-- Multi-rate padding for rate 136 with Keccak (pre-SHA3) domain byte 0x01. -/
def keccakPad (bytes : List Nat) : List Nat :=
  let padLen := 136 - bytes.length % 136
  if padLen = 1 then bytes ++ [0x81]
  else bytes ++ 0x01 :: List.replicate (padLen - 2) 0 ++ [0x80]

/-- Serialize one lane as 8 little-endian bytes. -/
def laneBytes (fuel : Nat) (x : Nat) : List Nat :=
  match fuel with
  | 0 => []
  | fuel + 1 => x % 256 :: laneBytes fuel (x / 256)

/-- Keccak-256 digest (32 bytes) of a byte list. -/
def keccak256 (bytes : List Nat) : List Nat :=
  let padded := keccakPad bytes
  let final := absorb (padded.length / 136 + 1) (List.replicate 25 0) padded
  laneBytes 8 (final.getD 0 0) ++ laneBytes 8 (final.getD 1 0) ++
    laneBytes 8 (final.getD 2 0) ++ laneBytes 8 (final.getD 3 0)

/-! ## Bytes, hex and grant-id derivation -/

/-- UTF-8 encoding of one character. -/
def charBytes (c : Char) : List Nat :=
  let n := c.toNat
  if n < 0x80 then [n]
  else if n < 0x800 then [0xC0 ||| (n >>> 6), 0x80 ||| (n &&& 0x3F)]
  else if n < 0x10000 then
    [0xE0 ||| (n >>> 12), 0x80 ||| ((n >>> 6) &&& 0x3F), 0x80 ||| (n &&& 0x3F)]
  else
    [0xF0 ||| (n >>> 18), 0x80 ||| ((n >>> 12) &&& 0x3F),
     0x80 ||| ((n >>> 6) &&& 0x3F), 0x80 ||| (n &&& 0x3F)]

/-- UTF-8 bytes of a string (the Rust side hashes `id.as_bytes()`). -/
def utf8Bytes (s : String) : List Nat :=
  s.data.foldr (fun c acc => charBytes c ++ acc) []

/-- Lower-case hex digit. -/
def hexChar (n : Nat) : Char :=
  "0123456789abcdef".toList.getD n '0'

/-- Lower-case hex encoding of a byte list (Rust `hex::encode`). -/
def hexEncode (bytes : List Nat) : String :=
  String.mk (bytes.foldr (fun b acc => hexChar (b / 16) :: hexChar (b % 16) :: acc) [])

/-- The grant record (`struct Grant`). -/
structure Grant where
  owner : String
  grantee : String
  data_id : String
  locked_until : Nat
deriving DecidableEq, Repr

/-- `derive_grant_id`: keccak256 of the naive concatenation of the four
fields (grantee in its canonical string form, `locked_until` in decimal),
hex encoded. -/
def derive_grant_id (grant : Grant) : String :=
  let id := grant.owner ++ grant.grantee ++ grant.data_id ++ Nat.repr grant.locked_until
  hexEncode (keccak256 (utf8Bytes id))

/-! ## The host's `LookupMap`, as an association list -/

/-- Association-list model of `near_sdk::collections::LookupMap`.
The host map has unique keys; `insert` replaces, `remove` deletes. -/
def LMap (K V : Type) : Type := List (K × V)

namespace LMap

variable {K V : Type} [DecidableEq K]

/-- The empty map (a fresh `LookupMap::new`). -/
def empty : LMap K V := ([] : List (K × V))

/-- `LookupMap::get`. -/
def get (m : LMap K V) (k : K) : Option V :=
  match m with
  | [] => none
  | (k', v) :: rest => if k' = k then some v else get rest k

/-- `LookupMap::insert` (replace an existing binding, else append). -/
def insert (m : LMap K V) (k : K) (v : V) : LMap K V :=
  match m with
  | [] => [(k, v)]
  | (k', v') :: rest =>
    if k' = k then (k, v) :: rest else (k', v') :: insert rest k v

/-- `LookupMap::remove`. -/
def remove (m : LMap K V) (k : K) : LMap K V :=
  match m with
  | [] => []
  | (k', v') :: rest =>
    if k' = k then remove rest k else (k', v') :: remove rest k

/-- `LookupMap::contains_key`. -/
def contains (m : LMap K V) (k : K) : Bool := (get m k).isSome

instance [DecidableEq V] : DecidableEq (LMap K V) :=
  inferInstanceAs (DecidableEq (List (K × V)))

theorem get_empty (k : K) : (empty : LMap K V).get k = none := rfl

theorem get_insert (m : LMap K V) (k k' : K) (v : V) :
    (m.insert k v).get k' = if k = k' then some v else m.get k' := by
  induction m with
  | nil => simp [insert, get]
  | cons p rest ih =>
    obtain ⟨k0, v0⟩ := p
    by_cases h0 : k0 = k
    · subst h0
      by_cases h1 : k0 = k'
      · subst h1; simp [insert, get]
      · simp [insert, get, h1]
    · by_cases h1 : k = k'
      · subst h1
        simp [insert, get, h0, ih]
      · by_cases h2 : k0 = k'
        · subst h2; simp [insert, get, h0, h1]
        · simp [insert, get, h0, h1, h2, ih]

theorem get_remove (m : LMap K V) (k k' : K) :
    (m.remove k).get k' = if k = k' then none else m.get k' := by
  induction m with
  | nil => simp [remove, get]
  | cons p rest ih =>
    obtain ⟨k0, v0⟩ := p
    by_cases h0 : k0 = k
    · subst h0
      by_cases h1 : k0 = k'
      · subst h1; simpa [remove, get] using ih
      · simp [remove, get, h1, ih]
    · by_cases h2 : k0 = k'
      · subst h2
        simp [remove, get, h0]
        intro h; exact absurd h.symm h0
      · simp [remove, get, h0, h2, ih]

end LMap

/-! ## The registry state and its operations -/

/-- The contract state (`struct FractalRegistry`). -/
structure FractalRegistry where
  grants_by_id : LMap String Grant
  grant_ids_by_owner : LMap String (List String)
  grant_ids_by_grantee : LMap String (List String)
  grant_ids_by_data_id : LMap String (List String)
deriving DecidableEq

/-- `Default::default()`: four empty maps. -/
def FractalRegistry.default : FractalRegistry :=
  { grants_by_id := LMap.empty, grant_ids_by_owner := LMap.empty,
    grant_ids_by_grantee := LMap.empty, grant_ids_by_data_id := LMap.empty }

/-- The caller-visible failure conditions.  A `require!` failure or an
`unwrap` panic aborts the call; the host then discards all of the call's
effects, which the `Except` result models. -/
inductive RegError where
  | duplicateGrant
  | timelocked
  | invalidQuery
  | panic
deriving DecidableEq, Repr

/-- `get_push_insert`: fetch the list at `key` (empty if absent), push
`value`, store back. -/
def get_push_insert (m : LMap String (List String)) (key value : String) :
    LMap String (List String) :=
  m.insert key (((m.get key).getD []) ++ [value])

/-- `remove_values`: fetch the list at `key` (`unwrap` panics when absent,
modelled as `none`), retain the elements different from `value`, store
back. -/
def remove_values (m : LMap String (List String)) (key value : String) :
    Option (LMap String (List String)) :=
  match m.get key with
  | some l => some (m.insert key (l.filter fun id => id != value))
  | none => none

/-- `insert_grant`.  `caller` is `env::predecessor_account_id()`. -/
def insert_grant (st : FractalRegistry) (caller grantee data_id : String)
    (locked_until : Option Nat) : Except RegError FractalRegistry :=
  let grant : Grant :=
    { owner := caller, grantee := grantee, data_id := data_id,
      locked_until := locked_until.getD 0 }
  let grant_id := derive_grant_id grant
  if st.grants_by_id.contains grant_id then Except.error RegError.duplicateGrant
  else
    Except.ok
      { grants_by_id := st.grants_by_id.insert grant_id grant,
        grant_ids_by_owner := get_push_insert st.grant_ids_by_owner caller grant_id,
        grant_ids_by_grantee := get_push_insert st.grant_ids_by_grantee grantee grant_id,
        grant_ids_by_data_id := get_push_insert st.grant_ids_by_data_id data_id grant_id }

/-- The map over surviving candidate ids at the end of `find_grants`:
`self.grants_by_id.get(id).unwrap()` for each id, a panic on a missing
entry aborting the call. -/
def lookupGrants (store : LMap String Grant) : List String → Except RegError (List Grant)
  | [] => Except.ok []
  | id :: rest =>
    match store.get id with
    | some g =>
      match lookupGrants store rest with
      | Except.ok gs => Except.ok (g :: gs)
      | Except.error e => Except.error e
    | none => Except.error RegError.panic

/-- `find_grants`. -/
def find_grants (st : FractalRegistry) (owner grantee data_id : Option String) :
    Except RegError (List Grant) :=
  if owner.isSome || grantee.isSome then
    let searches : List (List String) :=
      (match owner with
        | some o => [(st.grant_ids_by_owner.get o).getD []]
        | none => []) ++
      (match grantee with
        | some g => [(st.grant_ids_by_grantee.get g).getD []]
        | none => []) ++
      (match data_id with
        | some d => [(st.grant_ids_by_data_id.get d).getD []]
        | none => [])
    match searches with
    | [] => Except.ok []
    | head :: tail =>
      lookupGrants st.grants_by_id
        (head.filter fun id => tail.all fun s => s.contains id)
  else Except.error RegError.invalidQuery

/-- `grants_for`: `find_grants` with `owner` unset. -/
def grants_for (st : FractalRegistry) (grantee data_id : String) :
    Except RegError (List Grant) :=
  find_grants st none (some grantee) (some data_id)

/-- The `locked_until` filter applied to the grants matching a delete
call (the closure in `delete_grant`). -/
def lockFilter (locked_until : Option Nat) (grant : Grant) : Bool :=
  match locked_until with
  | none => true
  | some 0 => true
  | some v => grant.locked_until == v

/-- The body of `delete_grant`'s `for_each`: the time-lock `require!`,
then removal from the primary store and the three indices (keyed by the
call's arguments). -/
def delete_one (caller grantee data_id : String) (now : Nat)
    (st : FractalRegistry) (grant : Grant) : Except RegError FractalRegistry :=
  if grant.locked_until < now then
    let grant_id := derive_grant_id grant
    match remove_values st.grant_ids_by_owner caller grant_id,
          remove_values st.grant_ids_by_grantee grantee grant_id,
          remove_values st.grant_ids_by_data_id data_id grant_id with
    | some mo, some mg, some md =>
      Except.ok
        { grants_by_id := st.grants_by_id.remove grant_id,
          grant_ids_by_owner := mo, grant_ids_by_grantee := mg,
          grant_ids_by_data_id := md }
    | _, _, _ => Except.error RegError.panic
  else Except.error RegError.timelocked

/-- The `for_each` loop of `delete_grant` over the filtered candidates. -/
def delete_loop (caller grantee data_id : String) (now : Nat) :
    FractalRegistry → List Grant → Except RegError FractalRegistry
  | st, [] => Except.ok st
  | st, g :: rest =>
    match delete_one caller grantee data_id now st g with
    | Except.ok st' => delete_loop caller grantee data_id now st' rest
    | Except.error e => Except.error e

/-- `delete_grant`.  `caller` is `env::predecessor_account_id()`, `now`
is `env::block_timestamp()`. -/
def delete_grant (st : FractalRegistry) (caller : String) (now : Nat)
    (grantee data_id : String) (locked_until : Option Nat) :
    Except RegError FractalRegistry :=
  match find_grants st (some caller) (some grantee) (some data_id) with
  | Except.ok found =>
    delete_loop caller grantee data_id now st (found.filter (lockFilter locked_until))
  | Except.error e => Except.error e

/-- Registry states reachable from the empty registry by successful
`insert_grant` / `delete_grant` calls (with arbitrary callers and
clocks). -/
inductive Reachable : FractalRegistry → Prop where
  | empty : Reachable FractalRegistry.default
  | insert {st st' : FractalRegistry} {caller grantee data_id : String}
      {locked_until : Option Nat} : Reachable st →
      insert_grant st caller grantee data_id locked_until = Except.ok st' →
      Reachable st'
  | delete {st st' : FractalRegistry} {caller : String} {now : Nat}
      {grantee data_id : String} {locked_until : Option Nat} : Reachable st →
      delete_grant st caller now grantee data_id locked_until = Except.ok st' →
      Reachable st'

/-! ## The registry invariant -/

/-- The id list a secondary index holds at `k` (absent key = empty list). -/
def listAt (m : LMap String (List String)) (k : String) : List String :=
  (m.get k).getD []

/-- Every stored grant sits under its derived id. -/
def StoreWF (st : FractalRegistry) : Prop :=
  ∀ id g, st.grants_by_id.get id = some g → derive_grant_id g = id

/-- Index consistency for one secondary index: each stored id occurs
exactly once in the list keyed by its grant's field and in no other
list. -/
def IndexOk (m : LMap String (List String)) (store : LMap String Grant)
    (field : Grant → String) : Prop :=
  ∀ id g, store.get id = some g →
    (listAt m (field g)).count id = 1 ∧
    ∀ k, k ≠ field g → (listAt m k).count id = 0

/-- Referential integrity for one secondary index: every id it holds is
a key of the primary store. -/
def RefOk (m : LMap String (List String)) (store : LMap String Grant) : Prop :=
  ∀ k id, id ∈ listAt m k → (store.get id).isSome = true

/-- The full registry invariant (named RegInv to avoid the Mathlib class). -/
def RegInv (st : FractalRegistry) : Prop :=
  StoreWF st ∧
  IndexOk st.grant_ids_by_owner st.grants_by_id Grant.owner ∧
  IndexOk st.grant_ids_by_grantee st.grants_by_id Grant.grantee ∧
  IndexOk st.grant_ids_by_data_id st.grants_by_id Grant.data_id ∧
  RefOk st.grant_ids_by_owner st.grants_by_id ∧
  RefOk st.grant_ids_by_grantee st.grants_by_id ∧
  RefOk st.grant_ids_by_data_id st.grants_by_id

/-! ## Basic lemmas about the index helpers -/

theorem listAt_get_push_insert (m : LMap String (List String)) (key v k : String) :
    listAt (get_push_insert m key v) k =
      if key = k then listAt m key ++ [v] else listAt m k := by
  unfold listAt get_push_insert
  rw [LMap.get_insert]
  by_cases h : key = k
  · subst h; simp
  · simp [h]

theorem remove_values_none_iff (m : LMap String (List String)) (key v : String) :
    remove_values m key v = none ↔ m.get key = none := by
  unfold remove_values
  cases m.get key <;> simp

theorem listAt_remove_values {m m' : LMap String (List String)} {key v : String}
    (h : remove_values m key v = some m') (k : String) :
    listAt m' k =
      if key = k then (listAt m key).filter (fun i => i != v) else listAt m k := by
  unfold remove_values at h
  cases hg : m.get key with
  | none => rw [hg] at h; cases h
  | some l =>
    rw [hg] at h
    injection h with h
    subst h
    unfold listAt
    rw [LMap.get_insert]
    by_cases hk : key = k
    · subst hk; simp [hg]
    · simp [hk]

theorem count_filter_ne (l : List String) (v id : String) :
    ((l.filter fun i => i != v).count id) = if id = v then 0 else l.count id := by
  induction l with
  | nil => simp
  | cons a rest ih =>
    by_cases hav : a = v
    · subst hav
      have : (a :: rest).filter (fun i => i != a) = rest.filter (fun i => i != a) :=
        List.filter_cons_of_neg (by simp)
      rw [this, ih]
      by_cases hid : id = a
      · simp [hid]
      · simp [hid, List.count_cons, hid]
    · have : (a :: rest).filter (fun i => i != v) = a :: rest.filter (fun i => i != v) :=
        List.filter_cons_of_pos (by simp [hav])
      rw [this]
      by_cases hid : id = v
      · subst hid
        simp [List.count_cons, ih, Ne.symm hav, hav]
      · simp [List.count_cons, ih, hid]

theorem mem_filter_ne {l : List String} {v id : String} :
    id ∈ (l.filter fun i => i != v) ↔ (id ∈ l ∧ id ≠ v) := by
  simp [List.mem_filter]

/-! ## The invariant holds in the empty registry -/

theorem regInv_default : RegInv FractalRegistry.default := by
  refine ⟨?_, ?_, ?_, ?_, ?_, ?_, ?_⟩ <;> intro x y h <;> cases h

/-! ## Insert preserves the invariant -/

theorem indexOk_push {m : LMap String (List String)} {store : LMap String Grant}
    {field : Grant → String} (hIxOk : IndexOk m store field) (hRef : RefOk m store)
    {id0 : String} {g0 : Grant} (hnew : store.get id0 = none) :
    IndexOk (get_push_insert m (field g0) id0) (store.insert id0 g0) field := by
  have hcount0 : ∀ k, (listAt m k).count id0 = 0 := by
    intro k
    refine List.count_eq_zero.mpr fun hmem => ?_
    have := hRef k id0 hmem
    rw [hnew] at this
    cases this
  intro id g hg
  rw [LMap.get_insert] at hg
  by_cases hi : id0 = id
  · subst hi
    rw [if_pos rfl] at hg
    injection hg with hg
    subst hg
    constructor
    · rw [listAt_get_push_insert, if_pos rfl, List.count_append]
      simp [hcount0]
    · intro k hk
      rw [listAt_get_push_insert, if_neg (fun h => hk h.symm)]
      exact hcount0 k
  · rw [if_neg hi] at hg
    obtain ⟨h1, h2⟩ := hIxOk id g hg
    constructor
    · rw [listAt_get_push_insert]
      by_cases hk : field g0 = field g
      · rw [if_pos hk, hk, List.count_append]
        have : ([id0].count id) = 0 :=
          List.count_eq_zero.mpr (by simp; exact fun h => hi h.symm)
        omega
      · rw [if_neg hk]; exact h1
    · intro k hk
      rw [listAt_get_push_insert]
      by_cases hk0 : field g0 = k
      · subst hk0
        rw [if_pos rfl, List.count_append]
        have hz := h2 (field g0) hk
        have : ([id0].count id) = 0 :=
          List.count_eq_zero.mpr (by simp; exact fun h => hi h.symm)
        omega
      · rw [if_neg hk0]; exact h2 k hk

theorem refOk_push {m : LMap String (List String)} {store : LMap String Grant}
    (hRef : RefOk m store) (key : String) {id0 : String} (g0 : Grant) :
    RefOk (get_push_insert m key id0) (store.insert id0 g0) := by
  intro k id hmem
  rw [listAt_get_push_insert] at hmem
  by_cases hi : id0 = id
  · subst hi
    rw [LMap.get_insert, if_pos rfl]
    rfl
  · have hid : ∃ k', id ∈ listAt m k' := by
      by_cases hk : key = k
      · rw [if_pos hk] at hmem
        rcases List.mem_append.mp hmem with h | h
        · exact ⟨key, h⟩
        · simp at h; exact absurd h.symm hi
      · rw [if_neg hk] at hmem; exact ⟨k, hmem⟩
    obtain ⟨k', hk'⟩ := hid
    rw [LMap.get_insert, if_neg hi]
    exact hRef k' id hk'

/-! ## Characterization of `insert_grant` -/

theorem insert_grant_ok_inv {st st' : FractalRegistry} {c gr d : String} {lu : Option Nat}
    (h : insert_grant st c gr d lu = Except.ok st') :
    st.grants_by_id.contains
        (derive_grant_id { owner := c, grantee := gr, data_id := d, locked_until := lu.getD 0 }) =
      false ∧
    st' =
      { grants_by_id :=
          st.grants_by_id.insert
            (derive_grant_id { owner := c, grantee := gr, data_id := d, locked_until := lu.getD 0 })
            { owner := c, grantee := gr, data_id := d, locked_until := lu.getD 0 },
        grant_ids_by_owner :=
          get_push_insert st.grant_ids_by_owner c
            (derive_grant_id { owner := c, grantee := gr, data_id := d, locked_until := lu.getD 0 }),
        grant_ids_by_grantee :=
          get_push_insert st.grant_ids_by_grantee gr
            (derive_grant_id { owner := c, grantee := gr, data_id := d, locked_until := lu.getD 0 }),
        grant_ids_by_data_id :=
          get_push_insert st.grant_ids_by_data_id d
            (derive_grant_id { owner := c, grantee := gr, data_id := d, locked_until := lu.getD 0 }) } := by
  unfold insert_grant at h
  by_cases hc :
      st.grants_by_id.contains
        (derive_grant_id { owner := c, grantee := gr, data_id := d, locked_until := lu.getD 0 }) = true
  · rw [if_pos hc] at h; cases h
  · rw [if_neg hc] at h
    injection h with h
    exact ⟨Bool.not_eq_true _ ▸ Bool.of_not_eq_true hc, h.symm⟩

theorem insert_grant_ok_of_absent (st : FractalRegistry) (c gr d : String) (lu : Option Nat)
    (h : st.grants_by_id.contains
          (derive_grant_id { owner := c, grantee := gr, data_id := d, locked_until := lu.getD 0 }) =
        false) :
    insert_grant st c gr d lu =
      Except.ok
        { grants_by_id :=
            st.grants_by_id.insert
              (derive_grant_id { owner := c, grantee := gr, data_id := d, locked_until := lu.getD 0 })
              { owner := c, grantee := gr, data_id := d, locked_until := lu.getD 0 },
          grant_ids_by_owner :=
            get_push_insert st.grant_ids_by_owner c
              (derive_grant_id { owner := c, grantee := gr, data_id := d, locked_until := lu.getD 0 }),
          grant_ids_by_grantee :=
            get_push_insert st.grant_ids_by_grantee gr
              (derive_grant_id { owner := c, grantee := gr, data_id := d, locked_until := lu.getD 0 }),
          grant_ids_by_data_id :=
            get_push_insert st.grant_ids_by_data_id d
              (derive_grant_id { owner := c, grantee := gr, data_id := d, locked_until := lu.getD 0 }) } := by
  unfold insert_grant
  rw [if_neg (by simp [h])]

theorem insert_grant_error_iff (st : FractalRegistry) (c gr d : String) (lu : Option Nat)
    (e : RegError) :
    insert_grant st c gr d lu = Except.error e ↔
      (e = RegError.duplicateGrant ∧
        st.grants_by_id.contains
            (derive_grant_id { owner := c, grantee := gr, data_id := d, locked_until := lu.getD 0 }) =
          true) := by
  unfold insert_grant
  by_cases hc :
      st.grants_by_id.contains
        (derive_grant_id { owner := c, grantee := gr, data_id := d, locked_until := lu.getD 0 }) = true
  · rw [if_pos hc]
    constructor
    · intro h; injection h with h; exact ⟨h.symm, hc⟩
    · rintro ⟨he, -⟩; rw [he]
  · rw [if_neg hc]
    constructor
    · intro h; cases h
    · rintro ⟨-, h⟩; exact absurd h hc

/-! ## Insert preserves the invariant -/

theorem inv_insert {st st' : FractalRegistry} {c gr d : String} {lu : Option Nat}
    (hinv : RegInv st) (h : insert_grant st c gr d lu = Except.ok st') : RegInv st' := by
  obtain ⟨hWF, hIOo, hIOg, hIOd, hRo, hRg, hRd⟩ := hinv
  obtain ⟨hc, hst⟩ := insert_grant_ok_inv h
  subst hst
  have hnone :
      st.grants_by_id.get
        (derive_grant_id { owner := c, grantee := gr, data_id := d, locked_until := lu.getD 0 }) =
      none := by
    unfold LMap.contains at hc
    exact Option.not_isSome_iff_eq_none.mp (by simp [hc])
  refine ⟨?_, ?_, ?_, ?_, ?_, ?_, ?_⟩
  · intro id g hg
    rw [LMap.get_insert] at hg
    by_cases hi :
        derive_grant_id { owner := c, grantee := gr, data_id := d, locked_until := lu.getD 0 } = id
    · rw [if_pos hi] at hg
      injection hg with hg
      subst hg
      exact hi
    · rw [if_neg hi] at hg
      exact hWF id g hg
  · exact indexOk_push hIOo hRo hnone
  · exact indexOk_push hIOg hRg hnone
  · exact indexOk_push hIOd hRd hnone
  · exact refOk_push hRo c _
  · exact refOk_push hRg gr _
  · exact refOk_push hRd d _

/-! ## Lemmas about `lookupGrants` and index membership -/

theorem lookupGrants_eq (store : LMap String Grant) (ids : List String)
    (h : ∀ id ∈ ids, (store.get id).isSome = true) :
    lookupGrants store ids = Except.ok (ids.filterMap fun id => store.get id) := by
  induction ids with
  | nil => rfl
  | cons id rest ih =>
    obtain ⟨g, hg⟩ := Option.isSome_iff_exists.mp (h id (List.mem_cons_self _ _))
    have ih' := ih fun i hi => h i (List.mem_cons_of_mem _ hi)
    unfold lookupGrants
    rw [hg, ih']
    simp [List.filterMap_cons, hg]

theorem filterMap_get_nodup {store : LMap String Grant} {ids : List String}
    (hWF : ∀ id g, store.get id = some g → derive_grant_id g = id)
    (hnd : ids.Nodup) : (ids.filterMap fun id => store.get id).Nodup := by
  induction ids with
  | nil => simp
  | cons id rest ih =>
    rw [List.filterMap_cons]
    have hnr : rest.Nodup := (List.nodup_cons.mp hnd).2
    cases hg : store.get id with
    | none => exact ih hnr
    | some g =>
      refine List.nodup_cons.mpr ⟨?_, ih hnr⟩
      intro hmem
      obtain ⟨id', hid', hg'⟩ := List.mem_filterMap.mp hmem
      have : id' = id := by rw [← hWF id' g hg', ← hWF id g hg]
      subst this
      exact (List.nodup_cons.mp hnd).1 hid'

theorem mem_listAt_iff {m : LMap String (List String)} {store : LMap String Grant}
    {field : Grant → String} (hIxOk : IndexOk m store field)
    {id : String} {g : Grant} (hg : store.get id = some g) (x : String) :
    id ∈ listAt m x ↔ field g = x := by
  obtain ⟨h1, h2⟩ := hIxOk id g hg
  constructor
  · intro hmem
    by_contra hne
    have := h2 x fun hx => hne hx.symm
    rw [List.count_eq_zero] at this
    exact this hmem
  · intro hx
    subst hx
    have : 0 < (listAt m (field g)).count id := by omega
    exact List.count_pos_iff.mp this

theorem listAt_nodup {m : LMap String (List String)} {store : LMap String Grant}
    {field : Grant → String} (hIxOk : IndexOk m store field) (hRef : RefOk m store)
    (x : String) : (listAt m x).Nodup := by
  rw [List.nodup_iff_count_le_one]
  intro id
  by_cases hmem : id ∈ listAt m x
  · obtain ⟨g, hg⟩ := Option.isSome_iff_exists.mp (hRef x id hmem)
    obtain ⟨h1, h2⟩ := hIxOk id g hg
    by_cases hx : field g = x
    · subst hx; omega
    · have := h2 x fun h => hx h.symm
      omega
  · rw [List.count_eq_zero.mpr hmem]
    omega

theorem mem_head_filter_all {head : List String} {tail : List (List String)} {id : String} :
    id ∈ (head.filter fun i => tail.all fun s => s.contains i) ↔
      (id ∈ head ∧ ∀ s ∈ tail, id ∈ s) := by
  rw [List.mem_filter, List.all_eq_true]
  constructor
  · rintro ⟨h1, h2⟩
    exact ⟨h1, fun s hs => by simpa using h2 s hs⟩
  · rintro ⟨h1, h2⟩
    exact ⟨h1, fun s hs => by simpa using h2 s hs⟩

/-- The common shape of every branch of `find_grants`: look up the head
index at `x0`, keep the ids present in every tail list, map them through
the primary store. -/
theorem find_assemble {st : FractalRegistry} (hinv : RegInv st)
    {m0 : LMap String (List String)} {field0 : Grant → String}
    (hIO0 : IndexOk m0 st.grants_by_id field0) (hRef0 : RefOk m0 st.grants_by_id)
    (x0 : String) (tail : List (List String)) :
    ∃ l,
      lookupGrants st.grants_by_id
          ((listAt m0 x0).filter fun i => tail.all fun s => s.contains i) =
        Except.ok l ∧
      l.Nodup ∧
      ∀ g : Grant, g ∈ l ↔
        (st.grants_by_id.get (derive_grant_id g) = some g ∧ field0 g = x0 ∧
          ∀ s ∈ tail, derive_grant_id g ∈ s) := by
  obtain ⟨hWF, -, -, -, -, -, -⟩ := hinv
  set ids := (listAt m0 x0).filter fun i => tail.all fun s => s.contains i with hids
  have hpresent : ∀ id ∈ ids, (st.grants_by_id.get id).isSome = true := fun id hid =>
    hRef0 x0 id (List.mem_filter.mp hid).1
  refine ⟨ids.filterMap fun id => st.grants_by_id.get id,
    lookupGrants_eq _ _ hpresent, ?_, ?_⟩
  · exact filterMap_get_nodup hWF ((listAt_nodup hIO0 hRef0 x0).filter _)
  · intro g
    rw [List.mem_filterMap]
    constructor
    · rintro ⟨id, hid, hg⟩
      have hd := hWF id g hg
      subst hd
      obtain ⟨hhead, htail⟩ := mem_head_filter_all.mp hid
      exact ⟨hg, (mem_listAt_iff hIO0 hg x0).mp hhead, htail⟩
    · rintro ⟨hg, hx0, htail⟩
      refine ⟨derive_grant_id g, mem_head_filter_all.mpr ⟨?_, htail⟩, hg⟩
      exact (mem_listAt_iff hIO0 hg x0).mpr hx0

/-- Functional correctness of `find_grants`: with at least one of
`owner`/`grantee` supplied it succeeds, and returns (without duplicates)
exactly the stored grants whose fields equal every supplied criterion. -/
theorem find_grants_ok {st : FractalRegistry} (hinv : RegInv st)
    (o gr d : Option String) (hreq : (o.isSome || gr.isSome) = true) :
    ∃ l, find_grants st o gr d = Except.ok l ∧ l.Nodup ∧
      ∀ g : Grant, g ∈ l ↔
        (st.grants_by_id.get (derive_grant_id g) = some g ∧
         (∀ x, o = some x → g.owner = x) ∧
         (∀ x, gr = some x → g.grantee = x) ∧
         (∀ x, d = some x → g.data_id = x)) := by
  obtain ⟨hWF, hIOo, hIOg, hIOd, hRo, hRg, hRd⟩ := hinv
  have hinv' : RegInv st := ⟨hWF, hIOo, hIOg, hIOd, hRo, hRg, hRd⟩
  match o, gr, d with
  | none, none, _ => simp at hreq
  | some xo, none, none =>
    obtain ⟨l, hl, hnd, hmem⟩ := find_assemble hinv' hIOo hRo xo []
    refine ⟨l, hl, hnd, fun g => ?_⟩
    rw [hmem g]
    constructor
    · rintro ⟨hg, hxo, -⟩
      refine ⟨hg, ?_, ?_, ?_⟩
      · intro x hx; injection hx with hx; subst hx; exact hxo
      · intro x hx; cases hx
      · intro x hx; cases hx
    · rintro ⟨hg, h1, -, -⟩
      exact ⟨hg, h1 xo rfl, by simp⟩
  | some xo, none, some xd =>
    obtain ⟨l, hl, hnd, hmem⟩ :=
      find_assemble hinv' hIOo hRo xo [listAt st.grant_ids_by_data_id xd]
    refine ⟨l, hl, hnd, fun g => ?_⟩
    rw [hmem g]
    constructor
    · rintro ⟨hg, hxo, htail⟩
      refine ⟨hg, ?_, ?_, ?_⟩
      · intro x hx; injection hx with hx; subst hx; exact hxo
      · intro x hx; cases hx
      · intro x hx; injection hx with hx; subst hx
        exact (mem_listAt_iff hIOd hg xd).mp (htail _ (by simp))
    · rintro ⟨hg, h1, -, h3⟩
      refine ⟨hg, h1 xo rfl, fun s hs => ?_⟩
      simp only [List.mem_singleton] at hs
      subst hs
      exact (mem_listAt_iff hIOd hg xd).mpr (h3 xd rfl)
  | none, some xg, none =>
    obtain ⟨l, hl, hnd, hmem⟩ := find_assemble hinv' hIOg hRg xg []
    refine ⟨l, hl, hnd, fun g => ?_⟩
    rw [hmem g]
    constructor
    · rintro ⟨hg, hxg, -⟩
      refine ⟨hg, ?_, ?_, ?_⟩
      · intro x hx; cases hx
      · intro x hx; injection hx with hx; subst hx; exact hxg
      · intro x hx; cases hx
    · rintro ⟨hg, -, h2, -⟩
      exact ⟨hg, h2 xg rfl, by simp⟩
  | none, some xg, some xd =>
    obtain ⟨l, hl, hnd, hmem⟩ :=
      find_assemble hinv' hIOg hRg xg [listAt st.grant_ids_by_data_id xd]
    refine ⟨l, hl, hnd, fun g => ?_⟩
    rw [hmem g]
    constructor
    · rintro ⟨hg, hxg, htail⟩
      refine ⟨hg, ?_, ?_, ?_⟩
      · intro x hx; cases hx
      · intro x hx; injection hx with hx; subst hx; exact hxg
      · intro x hx; injection hx with hx; subst hx
        exact (mem_listAt_iff hIOd hg xd).mp (htail _ (by simp))
    · rintro ⟨hg, -, h2, h3⟩
      refine ⟨hg, h2 xg rfl, fun s hs => ?_⟩
      simp only [List.mem_singleton] at hs
      subst hs
      exact (mem_listAt_iff hIOd hg xd).mpr (h3 xd rfl)
  | some xo, some xg, none =>
    obtain ⟨l, hl, hnd, hmem⟩ :=
      find_assemble hinv' hIOo hRo xo [listAt st.grant_ids_by_grantee xg]
    refine ⟨l, hl, hnd, fun g => ?_⟩
    rw [hmem g]
    constructor
    · rintro ⟨hg, hxo, htail⟩
      refine ⟨hg, ?_, ?_, ?_⟩
      · intro x hx; injection hx with hx; subst hx; exact hxo
      · intro x hx; injection hx with hx; subst hx
        exact (mem_listAt_iff hIOg hg xg).mp (htail _ (by simp))
      · intro x hx; cases hx
    · rintro ⟨hg, h1, h2, -⟩
      refine ⟨hg, h1 xo rfl, fun s hs => ?_⟩
      simp only [List.mem_singleton] at hs
      subst hs
      exact (mem_listAt_iff hIOg hg xg).mpr (h2 xg rfl)
  | some xo, some xg, some xd =>
    obtain ⟨l, hl, hnd, hmem⟩ :=
      find_assemble hinv' hIOo hRo xo
        [listAt st.grant_ids_by_grantee xg, listAt st.grant_ids_by_data_id xd]
    refine ⟨l, hl, hnd, fun g => ?_⟩
    rw [hmem g]
    constructor
    · rintro ⟨hg, hxo, htail⟩
      refine ⟨hg, ?_, ?_, ?_⟩
      · intro x hx; injection hx with hx; subst hx; exact hxo
      · intro x hx; injection hx with hx; subst hx
        exact (mem_listAt_iff hIOg hg xg).mp (htail _ (by simp))
      · intro x hx; injection hx with hx; subst hx
        exact (mem_listAt_iff hIOd hg xd).mp (htail _ (by simp))
    · rintro ⟨hg, h1, h2, h3⟩
      refine ⟨hg, h1 xo rfl, fun s hs => ?_⟩
      simp only [List.mem_cons, List.mem_singleton] at hs
      rcases hs with hs | hs | hs
      · subst hs
        exact (mem_listAt_iff hIOg hg xg).mpr (h2 xg rfl)
      · subst hs
        exact (mem_listAt_iff hIOd hg xd).mpr (h3 xd rfl)
      · cases hs

/-! ## Delete machinery -/

/-- What `delete_grant` knows about each grant of its candidate list:
it is stored under its derived id and its fields equal the call's
owner/grantee/data_id arguments. -/
def Cand (st : FractalRegistry) (caller grantee data_id : String) (g : Grant) : Prop :=
  st.grants_by_id.get (derive_grant_id g) = some g ∧
  g.owner = caller ∧ g.grantee = grantee ∧ g.data_id = data_id

theorem delete_one_timelocked {caller grantee data_id : String} {now : Nat}
    (st : FractalRegistry) {g : Grant} (h : ¬ g.locked_until < now) :
    delete_one caller grantee data_id now st g = Except.error RegError.timelocked := by
  unfold delete_one
  rw [if_neg h]

/-- One secondary index after `remove_values` on the right key: every
list loses exactly the occurrences of the removed id. -/
theorem listAt_remove_key {m : LMap String (List String)} {store : LMap String Grant}
    {field : Grant → String} (hIxOk : IndexOk m store field) {g : Grant}
    (hg : store.get (derive_grant_id g) = some g) {key : String} (hkey : field g = key)
    {lo : List String} (hlo : m.get key = some lo) (k : String) :
    listAt (m.insert key (lo.filter fun i => i != derive_grant_id g)) k =
      (listAt m k).filter fun i => i != derive_grant_id g := by
  unfold listAt
  rw [LMap.get_insert]
  by_cases hk : key = k
  · subst hk
    simp [hlo]
  · rw [if_neg hk]
    have hout : derive_grant_id g ∉ listAt m k := by
      rw [mem_listAt_iff hIxOk hg k]
      intro h
      exact hk (hkey ▸ h)
    refine (List.filter_eq_self.mpr fun a ha => ?_).symm
    simp only [bne_iff_ne, ne_eq]
    intro hav
    subst hav
    exact hout ha

/-- Removing one id from the store and from every index list preserves
the invariant. -/
theorem regInv_of_removed {st st' : FractalRegistry} {id0 : String}
    (hinv : RegInv st)
    (hstore : ∀ id, st'.grants_by_id.get id =
      if id0 = id then none else st.grants_by_id.get id)
    (hco : ∀ k, listAt st'.grant_ids_by_owner k =
      (listAt st.grant_ids_by_owner k).filter fun i => i != id0)
    (hcg : ∀ k, listAt st'.grant_ids_by_grantee k =
      (listAt st.grant_ids_by_grantee k).filter fun i => i != id0)
    (hcd : ∀ k, listAt st'.grant_ids_by_data_id k =
      (listAt st.grant_ids_by_data_id k).filter fun i => i != id0) :
    RegInv st' := by
  obtain ⟨hWF, hIOo, hIOg, hIOd, hRo, hRg, hRd⟩ := hinv
  have hget : ∀ {id : String} {g1 : Grant}, st'.grants_by_id.get id = some g1 →
      (id0 ≠ id ∧ st.grants_by_id.get id = some g1) := by
    intro id g1 h
    rw [hstore] at h
    by_cases hi : id0 = id
    · rw [if_pos hi] at h; cases h
    · rw [if_neg hi] at h; exact ⟨hi, h⟩
  have hIdx : ∀ (m m' : LMap String (List String)) (field : Grant → String),
      IndexOk m st.grants_by_id field →
      (∀ k, listAt m' k = (listAt m k).filter fun i => i != id0) →
      IndexOk m' st'.grants_by_id field := by
    intro m m' field hIxOk hchar id g1 h
    obtain ⟨hne, hst⟩ := hget h
    obtain ⟨h1, h2⟩ := hIxOk id g1 hst
    constructor
    · rw [hchar, count_filter_ne, if_neg fun h' => hne h'.symm]
      exact h1
    · intro k hk
      rw [hchar, count_filter_ne, if_neg fun h' => hne h'.symm]
      exact h2 k hk
  have hRefT : ∀ (m m' : LMap String (List String)),
      RefOk m st.grants_by_id →
      (∀ k, listAt m' k = (listAt m k).filter fun i => i != id0) →
      RefOk m' st'.grants_by_id := by
    intro m m' hRef hchar k id hmem
    rw [hchar] at hmem
    obtain ⟨hm, hne⟩ := mem_filter_ne.mp hmem
    rw [hstore, if_neg fun h => hne h.symm]
    exact hRef k id hm
  exact ⟨fun id g1 h => hWF id g1 (hget h).2,
    hIdx _ _ _ hIOo hco, hIdx _ _ _ hIOg hcg, hIdx _ _ _ hIOd hcd,
    hRefT _ _ hRo hco, hRefT _ _ hRg hcg, hRefT _ _ hRd hcd⟩

theorem delete_one_ok {st : FractalRegistry} {caller grantee data_id : String} {now : Nat}
    {g : Grant} (hinv : RegInv st) (hc : Cand st caller grantee data_id g)
    (hlock : g.locked_until < now) :
    ∃ st', delete_one caller grantee data_id now st g = Except.ok st' ∧
      RegInv st' ∧
      (∀ id, st'.grants_by_id.get id =
        if derive_grant_id g = id then none else st.grants_by_id.get id) ∧
      (∀ k, listAt st'.grant_ids_by_owner k =
        (listAt st.grant_ids_by_owner k).filter fun i => i != derive_grant_id g) ∧
      (∀ k, listAt st'.grant_ids_by_grantee k =
        (listAt st.grant_ids_by_grantee k).filter fun i => i != derive_grant_id g) ∧
      (∀ k, listAt st'.grant_ids_by_data_id k =
        (listAt st.grant_ids_by_data_id k).filter fun i => i != derive_grant_id g) := by
  obtain ⟨hg, hown, hgr, hdid⟩ := hc
  obtain ⟨hWF, hIOo, hIOg, hIOd, hRo, hRg, hRd⟩ := hinv
  have hinv' : RegInv st := ⟨hWF, hIOo, hIOg, hIOd, hRo, hRg, hRd⟩
  have hsome : ∀ (m : LMap String (List String)) (field : Grant → String)
      (hIxOk : IndexOk m st.grants_by_id field) (key : String), field g = key →
      ∃ lo, m.get key = some lo := by
    intro m field hIxOk key hkey
    have hmem : derive_grant_id g ∈ listAt m key :=
      (mem_listAt_iff hIxOk hg key).mpr hkey
    cases h : m.get key with
    | none =>
      unfold listAt at hmem
      rw [h] at hmem
      cases hmem
    | some lo => exact ⟨lo, rfl⟩
  obtain ⟨lo, hlo⟩ := hsome _ _ hIOo caller hown
  obtain ⟨lg, hlg⟩ := hsome _ _ hIOg grantee hgr
  obtain ⟨ld, hld⟩ := hsome _ _ hIOd data_id hdid
  have ho : remove_values st.grant_ids_by_owner caller (derive_grant_id g) =
      some (st.grant_ids_by_owner.insert caller
        (lo.filter fun i => i != derive_grant_id g)) := by
    unfold remove_values; rw [hlo]
  have hg2 : remove_values st.grant_ids_by_grantee grantee (derive_grant_id g) =
      some (st.grant_ids_by_grantee.insert grantee
        (lg.filter fun i => i != derive_grant_id g)) := by
    unfold remove_values; rw [hlg]
  have hd2 : remove_values st.grant_ids_by_data_id data_id (derive_grant_id g) =
      some (st.grant_ids_by_data_id.insert data_id
        (ld.filter fun i => i != derive_grant_id g)) := by
    unfold remove_values; rw [hld]
  have hrun : delete_one caller grantee data_id now st g = Except.ok
      { grants_by_id := st.grants_by_id.remove (derive_grant_id g),
        grant_ids_by_owner := st.grant_ids_by_owner.insert caller
          (lo.filter fun i => i != derive_grant_id g),
        grant_ids_by_grantee := st.grant_ids_by_grantee.insert grantee
          (lg.filter fun i => i != derive_grant_id g),
        grant_ids_by_data_id := st.grant_ids_by_data_id.insert data_id
          (ld.filter fun i => i != derive_grant_id g) } := by
    unfold delete_one
    rw [if_pos hlock]
    simp only [ho, hg2, hd2]
  have hstore : ∀ id,
      (st.grants_by_id.remove (derive_grant_id g)).get id =
        if derive_grant_id g = id then none else st.grants_by_id.get id :=
    fun id => LMap.get_remove _ _ _
  have hco := listAt_remove_key hIOo hg hown hlo
  have hcg := listAt_remove_key hIOg hg hgr hlg
  have hcd := listAt_remove_key hIOd hg hdid hld
  exact ⟨_, hrun, regInv_of_removed hinv' hstore hco hcg hcd, hstore, hco, hcg, hcd⟩

/-- Candidates survive the deletion of a different candidate. -/
theorem cand_transfer {st st' : FractalRegistry} {caller grantee data_id : String}
    {g g' : Grant}
    (hg_store : st.grants_by_id.get (derive_grant_id g) = some g)
    (hstore : ∀ id, st'.grants_by_id.get id =
      if derive_grant_id g = id then none else st.grants_by_id.get id)
    (hc' : Cand st caller grantee data_id g') (hne : g' ≠ g) :
    Cand st' caller grantee data_id g' := by
  obtain ⟨hg', ho, hgr, hd⟩ := hc'
  refine ⟨?_, ho, hgr, hd⟩
  rw [hstore, if_neg]
  · exact hg'
  · intro h
    rw [h] at hg_store
    rw [hg_store] at hg'
    injection hg' with hg'
    exact hne hg'.symm

/-- The cumulative effect of deleting a list of ids: those primary-store
entries are gone, everything else is untouched, and every index list is
the old list minus the removed ids. -/
def PostRemoved (st st' : FractalRegistry) (rem : List String) : Prop :=
  (∀ id ∈ rem, st'.grants_by_id.get id = none) ∧
  (∀ id, id ∉ rem → st'.grants_by_id.get id = st.grants_by_id.get id) ∧
  (∀ k, listAt st'.grant_ids_by_owner k =
    (listAt st.grant_ids_by_owner k).filter fun i => !(rem.contains i)) ∧
  (∀ k, listAt st'.grant_ids_by_grantee k =
    (listAt st.grant_ids_by_grantee k).filter fun i => !(rem.contains i)) ∧
  (∀ k, listAt st'.grant_ids_by_data_id k =
    (listAt st.grant_ids_by_data_id k).filter fun i => !(rem.contains i))

theorem filter_remove_cons (l : List String) (id0 : String) (rem : List String) :
    ((l.filter fun i => i != id0).filter fun i => !(rem.contains i)) =
      l.filter fun i => !((id0 :: rem).contains i) := by
  rw [List.filter_filter]
  refine List.filter_congr fun a _ => ?_
  simp only [List.contains_cons, Bool.not_or, bne]
  exact Bool.and_comm _ _

theorem delete_loop_ok {caller grantee data_id : String} {now : Nat} :
    ∀ (cands : List Grant) (st : FractalRegistry), RegInv st →
    (∀ g ∈ cands, Cand st caller grantee data_id g) → cands.Nodup →
    (∀ g ∈ cands, g.locked_until < now) →
    ∃ st', delete_loop caller grantee data_id now st cands = Except.ok st' ∧
      RegInv st' ∧ PostRemoved st st' (cands.map derive_grant_id) := by
  intro cands
  induction cands with
  | nil =>
    intro st hinv _ _ _
    refine ⟨st, rfl, hinv, ?_, ?_, ?_, ?_, ?_⟩
    · intro id h; cases h
    · intro id _; rfl
    · intro k; exact (List.filter_eq_self.mpr fun a _ => by simp).symm
    · intro k; exact (List.filter_eq_self.mpr fun a _ => by simp).symm
    · intro k; exact (List.filter_eq_self.mpr fun a _ => by simp).symm
  | cons g rest ih =>
    intro st hinv hcand hnd hlock
    have hgmem : g ∈ g :: rest := List.mem_cons_self _ _
    obtain ⟨st1, hrun, hinv1, hstore1, hco1, hcg1, hcd1⟩ :=
      delete_one_ok hinv (hcand g hgmem) (hlock g hgmem)
    have hg_store : st.grants_by_id.get (derive_grant_id g) = some g := (hcand g hgmem).1
    have hgnotin : g ∉ rest := (List.nodup_cons.mp hnd).1
    have hcands1 : ∀ g' ∈ rest, Cand st1 caller grantee data_id g' := by
      intro g' hg'
      refine cand_transfer hg_store hstore1 (hcand g' (List.mem_cons_of_mem _ hg')) ?_
      intro he
      subst he
      exact hgnotin hg'
    obtain ⟨st', hrun', hinv', hP1, hP2, hP3, hP4, hP5⟩ :=
      ih st1 hinv1 hcands1 (List.nodup_cons.mp hnd).2
        fun g' h => hlock g' (List.mem_cons_of_mem _ h)
    have hid0 : derive_grant_id g ∉ rest.map derive_grant_id := by
      intro hmem
      obtain ⟨g', hg', he⟩ := List.mem_map.mp hmem
      have := (hcands1 g' hg').1
      rw [he] at this
      rw [hstore1 (derive_grant_id g), if_pos rfl] at this
      cases this
    refine ⟨st', ?_, hinv', ?_, ?_, ?_, ?_, ?_⟩
    · unfold delete_loop
      rw [hrun]
      exact hrun'
    · intro id hid
      simp only [List.map_cons, List.mem_cons] at hid
      rcases hid with hid | hid
      · subst hid
        rw [hP2 _ hid0, hstore1, if_pos rfl]
      · exact hP1 id hid
    · intro id hid
      simp only [List.map_cons, List.mem_cons, not_or] at hid
      rw [hP2 _ hid.2, hstore1, if_neg fun h => hid.1 h.symm]
    · intro k
      rw [hP3, hco1, List.map_cons, filter_remove_cons]
    · intro k
      rw [hP4, hcg1, List.map_cons, filter_remove_cons]
    · intro k
      rw [hP5, hcd1, List.map_cons, filter_remove_cons]

theorem delete_loop_error {caller grantee data_id : String} {now : Nat} :
    ∀ (cands : List Grant) (st : FractalRegistry), RegInv st →
    (∀ g ∈ cands, Cand st caller grantee data_id g) → cands.Nodup →
    (∃ g ∈ cands, ¬ g.locked_until < now) →
    delete_loop caller grantee data_id now st cands =
      Except.error RegError.timelocked := by
  intro cands
  induction cands with
  | nil =>
    rintro st _ _ _ ⟨g, h, -⟩
    cases h
  | cons g rest ih =>
    rintro st hinv hcand hnd ⟨g0, hg0mem, hg0⟩
    by_cases hl : g.locked_until < now
    · have hgmem : g ∈ g :: rest := List.mem_cons_self _ _
      obtain ⟨st1, hrun, hinv1, hstore1, -, -, -⟩ :=
        delete_one_ok hinv (hcand g hgmem) hl
      have hg_store : st.grants_by_id.get (derive_grant_id g) = some g := (hcand g hgmem).1
      have hgnotin : g ∉ rest := (List.nodup_cons.mp hnd).1
      have hcands1 : ∀ g' ∈ rest, Cand st1 caller grantee data_id g' := by
        intro g' hg'
        refine cand_transfer hg_store hstore1 (hcand g' (List.mem_cons_of_mem _ hg')) ?_
        intro he
        subst he
        exact hgnotin hg'
      have hg0rest : g0 ∈ rest := by
        rcases List.mem_cons.mp hg0mem with he | h
        · subst he; exact absurd hl hg0
        · exact h
      unfold delete_loop
      rw [hrun]
      exact ih st1 hinv1 hcands1 (List.nodup_cons.mp hnd).2 ⟨g0, hg0rest, hg0⟩
    · unfold delete_loop
      rw [delete_one_timelocked st hl]

/-! ## `delete_grant` assembled -/

theorem delete_grant_eq {st : FractalRegistry} {caller : String} {now : Nat}
    {grantee data_id : String} {lu : Option Nat} {found : List Grant}
    (hf : find_grants st (some caller) (some grantee) (some data_id) = Except.ok found) :
    delete_grant st caller now grantee data_id lu =
      delete_loop caller grantee data_id now st (found.filter (lockFilter lu)) := by
  unfold delete_grant
  rw [hf]

theorem find_found_char {st : FractalRegistry} (hinv : RegInv st)
    {o gr d : Option String} {found : List Grant}
    (hf : find_grants st o gr d = Except.ok found)
    (hreq : (o.isSome || gr.isSome) = true) :
    found.Nodup ∧
      ∀ g : Grant, g ∈ found ↔
        (st.grants_by_id.get (derive_grant_id g) = some g ∧
         (∀ x, o = some x → g.owner = x) ∧
         (∀ x, gr = some x → g.grantee = x) ∧
         (∀ x, d = some x → g.data_id = x)) := by
  obtain ⟨l, hl, hnd, hmem⟩ := find_grants_ok hinv o gr d hreq
  rw [hf] at hl
  injection hl with hl
  subst hl
  exact ⟨hnd, hmem⟩

theorem cands_cand {st : FractalRegistry} (hinv : RegInv st)
    {caller grantee data_id : String} {found : List Grant} (lu : Option Nat)
    (hf : find_grants st (some caller) (some grantee) (some data_id) = Except.ok found) :
    (∀ g ∈ found.filter (lockFilter lu), Cand st caller grantee data_id g) ∧
      (found.filter (lockFilter lu)).Nodup := by
  obtain ⟨hnd, hmem⟩ := find_found_char hinv hf rfl
  constructor
  · intro g hg
    obtain ⟨hstore, h1, h2, h3⟩ := (hmem g).mp (List.mem_filter.mp hg).1
    exact ⟨hstore, h1 caller rfl, h2 grantee rfl, h3 data_id rfl⟩
  · exact hnd.filter _

/-- A successful `delete_grant` presupposes a successful internal query. -/
theorem delete_ok_find_ok {st st' : FractalRegistry} {caller : String} {now : Nat}
    {grantee data_id : String} {lu : Option Nat}
    (h : delete_grant st caller now grantee data_id lu = Except.ok st') :
    ∃ found, find_grants st (some caller) (some grantee) (some data_id) =
      Except.ok found := by
  unfold delete_grant at h
  cases hf : find_grants st (some caller) (some grantee) (some data_id) with
  | ok found => exact ⟨found, rfl⟩
  | error e => rw [hf] at h; cases h

/-- Delete preserves the invariant. -/
theorem inv_delete {st st' : FractalRegistry} {caller : String} {now : Nat}
    {grantee data_id : String} {lu : Option Nat} (hinv : RegInv st)
    (h : delete_grant st caller now grantee data_id lu = Except.ok st') :
    RegInv st' := by
  obtain ⟨found, hf⟩ := delete_ok_find_ok h
  rw [delete_grant_eq hf] at h
  obtain ⟨hcand, hnd⟩ := cands_cand hinv lu hf
  by_cases hall : ∀ g ∈ found.filter (lockFilter lu), g.locked_until < now
  · obtain ⟨st'', hrun, hinv'', -⟩ := delete_loop_ok _ st hinv hcand hnd hall
    rw [hrun] at h
    injection h with h
    subst h
    exact hinv''
  · push_neg at hall
    obtain ⟨g0, hg0, hl0⟩ := hall
    rw [delete_loop_error _ st hinv hcand hnd ⟨g0, hg0, by omega⟩] at h
    cases h

/-- Every reachable registry state satisfies the invariant. -/
theorem reachable_inv {st : FractalRegistry} (h : Reachable st) : RegInv st := by
  induction h with
  | empty => exact regInv_default
  | insert _ hok ih => exact inv_insert ih hok
  | delete _ hok ih => exact inv_delete ih hok

/-! ## Observational congruence of queries -/

theorem lookupGrants_congr {s1 s2 : LMap String Grant}
    (h : ∀ id, s1.get id = s2.get id) (ids : List String) :
    lookupGrants s1 ids = lookupGrants s2 ids := by
  induction ids with
  | nil => rfl
  | cons id rest ih =>
    unfold lookupGrants
    rw [h id, ih]

/-- `find_grants` only reads the store pointwise and the index lists
through `listAt`, so pointwise-equal states answer every query alike. -/
theorem find_grants_congr {st1 st2 : FractalRegistry}
    (hstore : ∀ id, st1.grants_by_id.get id = st2.grants_by_id.get id)
    (ho : ∀ k, listAt st1.grant_ids_by_owner k = listAt st2.grant_ids_by_owner k)
    (hg : ∀ k, listAt st1.grant_ids_by_grantee k = listAt st2.grant_ids_by_grantee k)
    (hd : ∀ k, listAt st1.grant_ids_by_data_id k = listAt st2.grant_ids_by_data_id k)
    (o gr d : Option String) :
    find_grants st1 o gr d = find_grants st2 o gr d := by
  have ho' : ∀ k, (st1.grant_ids_by_owner.get k).getD [] =
      (st2.grant_ids_by_owner.get k).getD [] := ho
  have hg' : ∀ k, (st1.grant_ids_by_grantee.get k).getD [] =
      (st2.grant_ids_by_grantee.get k).getD [] := hg
  have hd' : ∀ k, (st1.grant_ids_by_data_id.get k).getD [] =
      (st2.grant_ids_by_data_id.get k).getD [] := hd
  unfold find_grants
  cases o <;> cases gr <;> cases d <;>
    simp only [ho', hg', hd'] <;>
    first
      | rfl
      | exact lookupGrants_congr hstore _

theorem eq_singleton_of_mem_iff {l : List Grant} {a : Grant} (hnd : l.Nodup)
    (h : ∀ x, x ∈ l ↔ x = a) : l = [a] := by
  cases l with
  | nil => exact absurd ((h a).mpr rfl) (by simp)
  | cons b rest =>
    have hb : b = a := (h b).mp (List.mem_cons_self _ _)
    subst hb
    cases rest with
    | nil => rfl
    | cons c rest2 =>
      have hc : c = b := (h c).mp (by simp)
      subst hc
      have := (List.nodup_cons.mp hnd).1
      simp at this

theorem lockFilter_nonzero {v : Nat} (hv : v ≠ 0) (g : Grant) :
    lockFilter (some v) g = true ↔ g.locked_until = v := by
  cases v with
  | zero => exact absurd rfl hv
  | succ n =>
    unfold lockFilter
    simp

/-! ## Concrete example states (used to instantiate the theorems) -/

deriving instance DecidableEq for Except

/-- An unlocked example grant. -/
def gEx : Grant :=
  { owner := "alice.near", grantee := "pk-bob", data_id := "A1", locked_until := 0 }

/-- The id `derive_grant_id` assigns to `gEx`. -/
def idEx : String := "f6a3119fb91e7e5712e651db8580c8ddc0134ebb2d72aa76d34a4d99a85bfa62"

/-- The registry holding exactly `gEx`. -/
def stEx : FractalRegistry :=
  { grants_by_id := [(idEx, gEx)],
    grant_ids_by_owner := [("alice.near", [idEx])],
    grant_ids_by_grantee := [("pk-bob", [idEx])],
    grant_ids_by_data_id := [("A1", [idEx])] }

set_option maxRecDepth 40000 in
theorem stEx_eq :
    insert_grant FractalRegistry.default "alice.near" "pk-bob" "A1" none =
      Except.ok stEx := by decide

theorem reachable_stEx : Reachable stEx := Reachable.insert Reachable.empty stEx_eq

/-- A time-locked example grant (`locked_until = 100`). -/
def gL : Grant :=
  { owner := "alice.near", grantee := "pk-bob", data_id := "D1", locked_until := 100 }

/-- The id `derive_grant_id` assigns to `gL`. -/
def idL : String := "ccf11ab9f718251cddc3364e499ff67a8fac86691cca03558ec258c18c41d8d2"

/-- The registry holding exactly `gL`. -/
def stL : FractalRegistry :=
  { grants_by_id := [(idL, gL)],
    grant_ids_by_owner := [("alice.near", [idL])],
    grant_ids_by_grantee := [("pk-bob", [idL])],
    grant_ids_by_data_id := [("D1", [idL])] }

set_option maxRecDepth 40000 in
theorem stL_eq :
    insert_grant FractalRegistry.default "alice.near" "pk-bob" "D1" (some 100) =
      Except.ok stL := by decide

theorem reachable_stL : Reachable stL := Reachable.insert Reachable.empty stL_eq

/-- `stL` after the lock has passed and the grant was deleted. -/
def stD : FractalRegistry :=
  { grants_by_id := [],
    grant_ids_by_owner := [("alice.near", [])],
    grant_ids_by_grantee := [("pk-bob", [])],
    grant_ids_by_data_id := [("D1", [])] }

set_option maxRecDepth 40000 in
theorem stD_eq :
    delete_grant stL "alice.near" 200 "pk-bob" "D1" (some 100) = Except.ok stD := by
  decide

theorem findL_eq :
    find_grants stL (some "alice.near") (some "pk-bob") (some "D1") = Except.ok [gL] := by
  decide

/-! ## The claims -/

/-- C1: in every registry state reachable from the empty registry by
successful `insert_grant`/`delete_grant` calls, every identifier present in
the Primary Store `grants_by_id` appears exactly once in the by-owner list
keyed by its grant's owner, exactly once in the by-grantee list keyed by its
grantee, exactly once in the by-data_id list keyed by its data_id, and with
count zero in every list under any other key. -/
theorem C1_index_consistency {st : FractalRegistry} (h : Reachable st) :
    ∀ id g, st.grants_by_id.get id = some g →
      ((listAt st.grant_ids_by_owner g.owner).count id = 1 ∧
        ∀ k, k ≠ g.owner → (listAt st.grant_ids_by_owner k).count id = 0) ∧
      ((listAt st.grant_ids_by_grantee g.grantee).count id = 1 ∧
        ∀ k, k ≠ g.grantee → (listAt st.grant_ids_by_grantee k).count id = 0) ∧
      ((listAt st.grant_ids_by_data_id g.data_id).count id = 1 ∧
        ∀ k, k ≠ g.data_id → (listAt st.grant_ids_by_data_id k).count id = 0) := by
  obtain ⟨-, hIOo, hIOg, hIOd, -, -, -⟩ := reachable_inv h
  exact fun id g hg => ⟨hIOo id g hg, hIOg id g hg, hIOd id g hg⟩

/-- Witness for C1 at the concrete reachable one-grant registry `stEx`. -/
theorem C1_witness :
    ((listAt stEx.grant_ids_by_owner gEx.owner).count idEx = 1 ∧
      ∀ k, k ≠ gEx.owner → (listAt stEx.grant_ids_by_owner k).count idEx = 0) ∧
    ((listAt stEx.grant_ids_by_grantee gEx.grantee).count idEx = 1 ∧
      ∀ k, k ≠ gEx.grantee → (listAt stEx.grant_ids_by_grantee k).count idEx = 0) ∧
    ((listAt stEx.grant_ids_by_data_id gEx.data_id).count idEx = 1 ∧
      ∀ k, k ≠ gEx.data_id → (listAt stEx.grant_ids_by_data_id k).count idEx = 0) :=
  C1_index_consistency reachable_stEx idEx gEx (by decide)

/-- C10: in every reachable registry state, every id held by any secondary
index is a key of the Primary Store, so the store lookup `find_grants`
performs for each surviving candidate never hits an absent entry: no query
can end in the `panic` outcome of that lookup. -/
theorem C10_referential_integrity {st : FractalRegistry} (h : Reachable st) :
    (∀ k id, id ∈ listAt st.grant_ids_by_owner k →
      (st.grants_by_id.get id).isSome = true) ∧
    (∀ k id, id ∈ listAt st.grant_ids_by_grantee k →
      (st.grants_by_id.get id).isSome = true) ∧
    (∀ k id, id ∈ listAt st.grant_ids_by_data_id k →
      (st.grants_by_id.get id).isSome = true) ∧
    (∀ o gr d, find_grants st o gr d ≠ Except.error RegError.panic) := by
  have hinv := reachable_inv h
  obtain ⟨hWF, hIOo, hIOg, hIOd, hRo, hRg, hRd⟩ := hinv
  have hinv' : RegInv st := ⟨hWF, hIOo, hIOg, hIOd, hRo, hRg, hRd⟩
  refine ⟨hRo, hRg, hRd, ?_⟩
  intro o gr d
  match o, gr with
  | none, none =>
    intro hcon
    rw [show find_grants st none none d = Except.error RegError.invalidQuery from rfl]
      at hcon
    simp at hcon
  | some x, gr =>
    obtain ⟨l, hl, -, -⟩ := find_grants_ok hinv' (some x) gr d (by simp)
    rw [hl]
    intro hcon
    cases hcon
  | none, some x =>
    obtain ⟨l, hl, -, -⟩ := find_grants_ok hinv' none (some x) d (by simp)
    rw [hl]
    intro hcon
    cases hcon

/-- Witness for C10 at the concrete reachable one-grant registry `stEx`. -/
theorem C10_witness :
    (∀ k id, id ∈ listAt stEx.grant_ids_by_owner k →
      (stEx.grants_by_id.get id).isSome = true) ∧
    (∀ k id, id ∈ listAt stEx.grant_ids_by_grantee k →
      (stEx.grants_by_id.get id).isSome = true) ∧
    (∀ k id, id ∈ listAt stEx.grant_ids_by_data_id k →
      (stEx.grants_by_id.get id).isSome = true) ∧
    (∀ o gr d, find_grants stEx o gr d ≠ Except.error RegError.panic) :=
  C10_referential_integrity reachable_stEx

/-- C3: on a registry state satisfying the index-consistency invariant,
`find_grants` with at least one of owner/grantee supplied succeeds and
returns exactly the stored grants whose fields equal every supplied
criterion (without duplicates); in particular a query matching nothing
returns `ok []`, never an error. -/
theorem C3_query_correctness {st : FractalRegistry} (hinv : RegInv st)
    (o gr d : Option String) (hreq : (o.isSome || gr.isSome) = true) :
    ∃ l, find_grants st o gr d = Except.ok l ∧ l.Nodup ∧
      ∀ g : Grant, g ∈ l ↔
        ((∃ id, st.grants_by_id.get id = some g) ∧
         (∀ x, o = some x → g.owner = x) ∧
         (∀ x, gr = some x → g.grantee = x) ∧
         (∀ x, d = some x → g.data_id = x)) := by
  have hWF := hinv.1
  obtain ⟨l, hl, hnd, hmem⟩ := find_grants_ok hinv o gr d hreq
  refine ⟨l, hl, hnd, fun g => ?_⟩
  rw [hmem g]
  constructor
  · rintro ⟨hg, h1, h2, h3⟩
    exact ⟨⟨_, hg⟩, h1, h2, h3⟩
  · rintro ⟨⟨id, hid⟩, h1, h2, h3⟩
    refine ⟨?_, h1, h2, h3⟩
    rw [hWF id g hid]
    exact hid

/-- Witness for C3: querying `stEx` by a grantee key that is absent from
the indices succeeds with the empty list. -/
theorem C3_witness :
    ∃ l, find_grants stEx none (some "pk-unknown") none = Except.ok l ∧ l.Nodup ∧
      ∀ g : Grant, g ∈ l ↔
        ((∃ id, stEx.grants_by_id.get id = some g) ∧
         (∀ x, (none : Option String) = some x → g.owner = x) ∧
         (∀ x, (some "pk-unknown" : Option String) = some x → g.grantee = x) ∧
         (∀ x, (none : Option String) = some x → g.data_id = x)) :=
  C3_query_correctness (reachable_inv reachable_stEx) none (some "pk-unknown") none rfl

/-- C4: grant-id derivation is a pure function of the four grant fields,
and on the worked example tuple it yields the documented identifier. -/
theorem C4_identity_derivation :
    (∀ g1 g2 : Grant, g1.owner = g2.owner → g1.grantee = g2.grantee →
      g1.data_id = g2.data_id → g1.locked_until = g2.locked_until →
      derive_grant_id g1 = derive_grant_id g2) ∧
    derive_grant_id
        { owner := "my-cool-account.near",
          grantee := "secp256k1:qMoRgcoXai4mBPsdbHi1wfyxF9TdbPCF4qSDQTRP3TfescSRoUdSx6nmeQoN3aiwGzwMyGXAb1gUjBTv5AY8DXj",
          data_id := "some data", locked_until := 1337 } =
      "848a69fe2d9b5d82d92a56936aa00f499f7274e8233eedba07b676de9d4c91be" := by
  constructor
  · intro g1 g2 h1 h2 h3 h4
    unfold derive_grant_id
    rw [h1, h2, h3, h4]
  · set_option maxRecDepth 40000 in decide

/-- C8: `find_grants` fails with the invalid-arguments condition exactly
when both owner and grantee are absent (whatever `data_id` is); with either
supplied it returns a list; and `grants_for` is `find_grants` with owner
unset, hence always passes the validation. -/
theorem C8_query_validation {st : FractalRegistry} (hinv : RegInv st)
    (o gr d : Option String) :
    (find_grants st o gr d = Except.error RegError.invalidQuery ↔
      (o = none ∧ gr = none)) ∧
    ((o.isSome || gr.isSome) = true → ∃ l, find_grants st o gr d = Except.ok l) ∧
    (∀ (gr' d' : String), grants_for st gr' d' =
      find_grants st none (some gr') (some d')) ∧
    (∀ (gr' d' : String), ∃ l, grants_for st gr' d' = Except.ok l) := by
  refine ⟨⟨?_, ?_⟩, ?_, fun gr' d' => rfl, ?_⟩
  · intro h
    match o, gr with
    | none, none => exact ⟨rfl, rfl⟩
    | some x, gr =>
      obtain ⟨l, hl, -, -⟩ := find_grants_ok hinv (some x) gr d (by simp)
      rw [hl] at h
      cases h
    | none, some x =>
      obtain ⟨l, hl, -, -⟩ := find_grants_ok hinv none (some x) d (by simp)
      rw [hl] at h
      cases h
  · rintro ⟨ho, hg⟩
    subst ho
    subst hg
    rfl
  · intro hreq
    obtain ⟨l, hl, -, -⟩ := find_grants_ok hinv o gr d hreq
    exact ⟨l, hl⟩
  · intro gr' d'
    obtain ⟨l, hl, -, -⟩ := find_grants_ok hinv none (some gr') (some d') (by simp)
    exact ⟨l, hl⟩

/-- Witness for C8 at `stEx`, with only `data_id` supplied: the call is
rejected as an invalid query. -/
theorem C8_witness :
    (find_grants stEx none none (some "A1") = Except.error RegError.invalidQuery ↔
      ((none : Option String) = none ∧ (none : Option String) = none)) ∧
    (((none : Option String).isSome || (none : Option String).isSome) = true →
      ∃ l, find_grants stEx none none (some "A1") = Except.ok l) ∧
    (∀ (gr' d' : String), grants_for stEx gr' d' =
      find_grants stEx none (some gr') (some d')) ∧
    (∀ (gr' d' : String), ∃ l, grants_for stEx gr' d' = Except.ok l) :=
  C8_query_validation (reachable_inv reachable_stEx) none none (some "A1")

/-- C7: `insert_grant` fails (with the duplicate condition, the only
insert failure) exactly when the id derived from (caller, grantee,
data_id, resolved locked_until) is already a Primary-Store key; the
`Except` result models the host discarding all effects of a failed call,
so a failed insert leaves the state unchanged.  A successful insert adds
the grant under its derived id and touches no other store entry, and after
it any tuple with a different derived id still inserts successfully,
producing two coexisting distinct grants. -/
theorem C7_duplicate_rejection (st : FractalRegistry) (c gr d : String) (lu : Option Nat) :
    (insert_grant st c gr d lu = Except.error RegError.duplicateGrant ↔
      st.grants_by_id.contains
          (derive_grant_id { owner := c, grantee := gr, data_id := d, locked_until := lu.getD 0 }) =
        true) ∧
    (∀ e, insert_grant st c gr d lu = Except.error e → e = RegError.duplicateGrant) ∧
    (∀ st', insert_grant st c gr d lu = Except.ok st' →
      st'.grants_by_id.get
          (derive_grant_id { owner := c, grantee := gr, data_id := d, locked_until := lu.getD 0 }) =
        some { owner := c, grantee := gr, data_id := d, locked_until := lu.getD 0 } ∧
      ∀ id, id ≠ derive_grant_id { owner := c, grantee := gr, data_id := d, locked_until := lu.getD 0 } →
        st'.grants_by_id.get id = st.grants_by_id.get id) ∧
    (∀ (c2 gr2 d2 : String) (lu2 : Option Nat) (st1 : FractalRegistry),
      insert_grant st c gr d lu = Except.ok st1 →
      derive_grant_id { owner := c2, grantee := gr2, data_id := d2, locked_until := lu2.getD 0 } ≠
        derive_grant_id { owner := c, grantee := gr, data_id := d, locked_until := lu.getD 0 } →
      st.grants_by_id.contains
          (derive_grant_id { owner := c2, grantee := gr2, data_id := d2, locked_until := lu2.getD 0 }) =
        false →
      ∃ st2, insert_grant st1 c2 gr2 d2 lu2 = Except.ok st2 ∧
        st2.grants_by_id.get
            (derive_grant_id { owner := c2, grantee := gr2, data_id := d2, locked_until := lu2.getD 0 }) =
          some { owner := c2, grantee := gr2, data_id := d2, locked_until := lu2.getD 0 } ∧
        st2.grants_by_id.get
            (derive_grant_id { owner := c, grantee := gr, data_id := d, locked_until := lu.getD 0 }) =
          some { owner := c, grantee := gr, data_id := d, locked_until := lu.getD 0 }) := by
  refine ⟨?_, ?_, ?_, ?_⟩
  · constructor
    · intro h
      exact ((insert_grant_error_iff st c gr d lu RegError.duplicateGrant).mp h).2
    · intro h
      exact (insert_grant_error_iff st c gr d lu RegError.duplicateGrant).mpr ⟨rfl, h⟩
  · intro e h
    exact ((insert_grant_error_iff st c gr d lu e).mp h).1
  · intro st' h
    obtain ⟨-, hst⟩ := insert_grant_ok_inv h
    subst hst
    constructor
    · rw [LMap.get_insert, if_pos rfl]
    · intro id hid
      rw [LMap.get_insert, if_neg fun hx => hid hx.symm]
  · intro c2 gr2 d2 lu2 st1 h1 hne habs2
    obtain ⟨-, hst1⟩ := insert_grant_ok_inv h1
    have hcont1 :
        st1.grants_by_id.contains
            (derive_grant_id { owner := c2, grantee := gr2, data_id := d2, locked_until := lu2.getD 0 }) =
          false := by
      subst hst1
      unfold LMap.contains
      rw [LMap.get_insert, if_neg fun hx => hne hx.symm]
      unfold LMap.contains at habs2
      exact habs2
    refine ⟨_, insert_grant_ok_of_absent st1 c2 gr2 d2 lu2 hcont1, ?_, ?_⟩
    · rw [LMap.get_insert, if_pos rfl]
    · rw [LMap.get_insert, if_neg hne]
      subst hst1
      rw [LMap.get_insert, if_pos rfl]

/-- C2: delete is all-or-nothing per call: if any grant of the candidate
set (the query's matches filtered by the `locked_until` argument) is still
time-locked at `now`, the whole call fails with the timelocked condition
and commits nothing — in the `Except` model of the transactional host, no
`ok` post-state exists, so no candidate (deletable or not) is removed. -/
theorem C2_delete_all_or_nothing {st : FractalRegistry} {caller : String} {now : Nat}
    {grantee data_id : String} {lu : Option Nat} {found : List Grant}
    (hinv : RegInv st)
    (hf : find_grants st (some caller) (some grantee) (some data_id) = Except.ok found)
    (hlocked : ∃ g ∈ found.filter (lockFilter lu), ¬ g.locked_until < now) :
    delete_grant st caller now grantee data_id lu = Except.error RegError.timelocked ∧
    ∀ st', delete_grant st caller now grantee data_id lu ≠ Except.ok st' := by
  obtain ⟨hcand, hnd⟩ := cands_cand hinv lu hf
  have herr : delete_loop caller grantee data_id now st (found.filter (lockFilter lu)) =
      Except.error RegError.timelocked :=
    delete_loop_error _ st hinv hcand hnd hlocked
  rw [delete_grant_eq hf]
  refine ⟨herr, fun st' hc => ?_⟩
  rw [herr] at hc
  cases hc

/-- Witness for C2: deleting from `stL` (one grant locked until 100) at
time 50 fails timelocked and no post-state exists. -/
theorem C2_witness :
    (delete_grant stL "alice.near" 50 "pk-bob" "D1" (some 100) =
      Except.error RegError.timelocked) ∧
    ∀ st', delete_grant stL "alice.near" 50 "pk-bob" "D1" (some 100) ≠ Except.ok st' :=
  C2_delete_all_or_nothing (reachable_inv reachable_stL) findL_eq
    ⟨gL, by decide, by decide⟩

/-- C5: the time-lock gate: a delete call fails with the timelocked
condition exactly when some candidate's `locked_until` is not strictly
below the current time reference — so a candidate locked exactly at `now`
blocks deletion, while strictly-past locks pass. -/
theorem C5_timelock_gate {st : FractalRegistry} {caller : String} {now : Nat}
    {grantee data_id : String} {lu : Option Nat} {found : List Grant}
    (hinv : RegInv st)
    (hf : find_grants st (some caller) (some grantee) (some data_id) = Except.ok found) :
    delete_grant st caller now grantee data_id lu = Except.error RegError.timelocked ↔
      ∃ g ∈ found.filter (lockFilter lu), now ≤ g.locked_until := by
  obtain ⟨hcand, hnd⟩ := cands_cand hinv lu hf
  rw [delete_grant_eq hf]
  constructor
  · intro h
    by_contra hno
    push_neg at hno
    have hall : ∀ g ∈ found.filter (lockFilter lu), g.locked_until < now :=
      fun g hg => by have := hno g hg; omega
    obtain ⟨st', hrun, -, -⟩ := delete_loop_ok _ st hinv hcand hnd hall
    rw [hrun] at h
    cases h
  · rintro ⟨g0, hg0, hl0⟩
    exact delete_loop_error _ st hinv hcand hnd ⟨g0, hg0, by omega⟩

/-- Witness for C5 at `stL` and time 50 with the filter argument omitted. -/
theorem C5_witness :
    delete_grant stL "alice.near" 50 "pk-bob" "D1" none =
        Except.error RegError.timelocked ↔
      ∃ g ∈ [gL].filter (lockFilter none), 50 ≤ g.locked_until :=
  C5_timelock_gate (reachable_inv reachable_stL) findL_eq

/-- C6: the `locked_until` argument selects the candidates: on a
successful delete, a stored grant is removed exactly when it matches the
call's (owner, grantee, data_id) and passes `lockFilter`; and `lockFilter`
accepts every grant when the argument is absent or `0`, and for a nonzero
argument exactly the grants whose own `locked_until` equals it. -/
theorem C6_lock_filter_semantics {st st' : FractalRegistry} {caller : String} {now : Nat}
    {grantee data_id : String} {lu : Option Nat}
    (hinv : RegInv st)
    (h : delete_grant st caller now grantee data_id lu = Except.ok st') :
    (∀ id g, st.grants_by_id.get id = some g →
      (st'.grants_by_id.get id = none ↔
        (g.owner = caller ∧ g.grantee = grantee ∧ g.data_id = data_id ∧
          lockFilter lu g = true))) ∧
    (∀ g : Grant, lockFilter none g = true) ∧
    (∀ g : Grant, lockFilter (some 0) g = true) ∧
    (∀ (v : Nat) (g : Grant), v ≠ 0 →
      (lockFilter (some v) g = true ↔ g.locked_until = v)) := by
  refine ⟨?_, fun g => rfl, fun g => rfl, fun v g hv => lockFilter_nonzero hv g⟩
  obtain ⟨found, hf⟩ := delete_ok_find_ok h
  rw [delete_grant_eq hf] at h
  obtain ⟨hcand, hnd⟩ := cands_cand hinv lu hf
  obtain ⟨hndf, hmem⟩ := find_found_char hinv hf rfl
  by_cases hall : ∀ g ∈ found.filter (lockFilter lu), g.locked_until < now
  · obtain ⟨st'', hrun, -, hP1, hP2, -, -, -⟩ := delete_loop_ok _ st hinv hcand hnd hall
    rw [hrun] at h
    injection h with h
    subst h
    intro id g hg
    constructor
    · intro hnone
      by_cases hin : id ∈ (found.filter (lockFilter lu)).map derive_grant_id
      · obtain ⟨gc, hgc, hder⟩ := List.mem_map.mp hin
        have hcg := (hcand gc hgc).1
        rw [hder, hg] at hcg
        injection hcg with hcg
        subst hcg
        obtain ⟨hfound, hlf⟩ := List.mem_filter.mp hgc
        obtain ⟨-, h1, h2, h3⟩ := (hmem _).mp hfound
        exact ⟨h1 caller rfl, h2 grantee rfl, h3 data_id rfl, hlf⟩
      · rw [hP2 id hin, hg] at hnone
        cases hnone
    · rintro ⟨h1, h2, h3, h4⟩
      have hWF := hinv.1
      have hder : derive_grant_id g = id := hWF id g hg
      have hfound : g ∈ found := by
        rw [hmem g]
        refine ⟨by rw [hder]; exact hg, ?_, ?_, ?_⟩
        · intro x hx; injection hx with hx; subst hx; exact h1
        · intro x hx; injection hx with hx; subst hx; exact h2
        · intro x hx; injection hx with hx; subst hx; exact h3
      apply hP1
      rw [← hder]
      exact List.mem_map_of_mem _ (List.mem_filter.mpr ⟨hfound, h4⟩)
  · push_neg at hall
    obtain ⟨g0, hg0, hl0⟩ := hall
    rw [delete_loop_error _ st hinv hcand hnd ⟨g0, hg0, by omega⟩] at h
    cases h

/-- Witness for C6: the successful deletion of `gL` from `stL` at time 200. -/
theorem C6_witness :
    (∀ id g, stL.grants_by_id.get id = some g →
      (stD.grants_by_id.get id = none ↔
        (g.owner = "alice.near" ∧ g.grantee = "pk-bob" ∧ g.data_id = "D1" ∧
          lockFilter (some 100) g = true))) ∧
    (∀ g : Grant, lockFilter none g = true) ∧
    (∀ g : Grant, lockFilter (some 0) g = true) ∧
    (∀ (v : Nat) (g : Grant), v ≠ 0 →
      (lockFilter (some v) g = true ↔ g.locked_until = v)) :=
  C6_lock_filter_semantics (reachable_inv reachable_stL) stD_eq

theorem grant_eq_of_fields {a b : Grant} (h1 : a.owner = b.owner)
    (h2 : a.grantee = b.grantee) (h3 : a.data_id = b.data_id)
    (h4 : a.locked_until = b.locked_until) : a = b := by
  cases a
  cases b
  simp_all

/-- C9: on an invariant-satisfying state whose store lacks the id derived
from (caller, grantee, data_id, v) with v nonzero, inserting that grant
and then deleting it with the same arguments at any time strictly after v
both succeed, and the final state answers every `find_grants` and
`grants_for` query exactly as the initial state did. -/
theorem C9_round_trip {st : FractalRegistry} (g0 : Grant) (now : Nat)
    (hinv : RegInv st)
    (habs : st.grants_by_id.get (derive_grant_id g0) = none)
    (hv : g0.locked_until ≠ 0) (hnow : g0.locked_until < now) :
    ∃ st1 st2,
      insert_grant st g0.owner g0.grantee g0.data_id (some g0.locked_until) =
        Except.ok st1 ∧
      delete_grant st1 g0.owner now g0.grantee g0.data_id (some g0.locked_until) =
        Except.ok st2 ∧
      (∀ o gr d, find_grants st2 o gr d = find_grants st o gr d) ∧
      (∀ gr d, grants_for st2 gr d = grants_for st gr d) := by
  obtain ⟨hWF, hIOo, hIOg, hIOd, hRo, hRg, hRd⟩ := hinv
  have hinv0 : RegInv st := ⟨hWF, hIOo, hIOg, hIOd, hRo, hRg, hRd⟩
  have hcont : st.grants_by_id.contains (derive_grant_id g0) = false := by
    unfold LMap.contains
    rw [habs]
    rfl
  set st1 : FractalRegistry :=
    { grants_by_id := st.grants_by_id.insert (derive_grant_id g0) g0,
      grant_ids_by_owner :=
        get_push_insert st.grant_ids_by_owner g0.owner (derive_grant_id g0),
      grant_ids_by_grantee :=
        get_push_insert st.grant_ids_by_grantee g0.grantee (derive_grant_id g0),
      grant_ids_by_data_id :=
        get_push_insert st.grant_ids_by_data_id g0.data_id (derive_grant_id g0) }
    with hst1
  have h1 : insert_grant st g0.owner g0.grantee g0.data_id (some g0.locked_until) =
      Except.ok st1 :=
    insert_grant_ok_of_absent st g0.owner g0.grantee g0.data_id (some g0.locked_until)
      hcont
  have hinv1 : RegInv st1 := inv_insert hinv0 h1
  have hstore1 : ∀ id, st1.grants_by_id.get id =
      if derive_grant_id g0 = id then some g0 else st.grants_by_id.get id := by
    intro id
    rw [hst1]
    exact LMap.get_insert _ _ _ _
  have hlist1o : ∀ k, listAt st1.grant_ids_by_owner k =
      if g0.owner = k then
        listAt st.grant_ids_by_owner g0.owner ++ [derive_grant_id g0]
      else listAt st.grant_ids_by_owner k := by
    intro k
    rw [hst1]
    exact listAt_get_push_insert _ _ _ _
  have hlist1g : ∀ k, listAt st1.grant_ids_by_grantee k =
      if g0.grantee = k then
        listAt st.grant_ids_by_grantee g0.grantee ++ [derive_grant_id g0]
      else listAt st.grant_ids_by_grantee k := by
    intro k
    rw [hst1]
    exact listAt_get_push_insert _ _ _ _
  have hlist1d : ∀ k, listAt st1.grant_ids_by_data_id k =
      if g0.data_id = k then
        listAt st.grant_ids_by_data_id g0.data_id ++ [derive_grant_id g0]
      else listAt st.grant_ids_by_data_id k := by
    intro k
    rw [hst1]
    exact listAt_get_push_insert _ _ _ _
  obtain ⟨found, hf, hnd, hmem⟩ :=
    find_grants_ok hinv1 (some g0.owner) (some g0.grantee) (some g0.data_id) rfl
  have hcands : found.filter (lockFilter (some g0.locked_until)) = [g0] := by
    apply eq_singleton_of_mem_iff (hnd.filter _)
    intro x
    rw [List.mem_filter]
    constructor
    · rintro ⟨hxf, hlf⟩
      obtain ⟨hgx, h1x, h2x, h3x⟩ := (hmem x).mp hxf
      exact grant_eq_of_fields (h1x g0.owner rfl) (h2x g0.grantee rfl)
        (h3x g0.data_id rfl) ((lockFilter_nonzero hv x).mp hlf)
    · intro hx
      refine ⟨(hmem x).mpr ⟨?_, ?_, ?_, ?_⟩, ?_⟩
      · rw [hx, hstore1, if_pos rfl]
      · intro y hy; injection hy with hy; rw [hx, ← hy]
      · intro y hy; injection hy with hy; rw [hx, ← hy]
      · intro y hy; injection hy with hy; rw [hx, ← hy]
      · rw [hx]
        exact (lockFilter_nonzero hv g0).mpr rfl
  have hCand : Cand st1 g0.owner g0.grantee g0.data_id g0 := by
    refine ⟨?_, rfl, rfl, rfl⟩
    rw [hstore1, if_pos rfl]
  obtain ⟨st2, h2run, hinv2, hstore2, hlo2, hlg2, hld2⟩ :=
    delete_one_ok hinv1 hCand hnow
  have h2 : delete_grant st1 g0.owner now g0.grantee g0.data_id (some g0.locked_until) =
      Except.ok st2 := by
    rw [delete_grant_eq hf, hcands]
    unfold delete_loop
    rw [h2run]
    rfl
  have hstoreEq : ∀ id, st2.grants_by_id.get id = st.grants_by_id.get id := by
    intro id
    rw [hstore2 id]
    by_cases hi : derive_grant_id g0 = id
    · rw [if_pos hi, ← hi]
      exact habs.symm
    · rw [if_neg hi, hstore1 id, if_neg hi]
  have hidnot : ∀ (m : LMap String (List String)), RefOk m st.grants_by_id →
      ∀ k, derive_grant_id g0 ∉ listAt m k := by
    intro m hRef k hmem'
    have := hRef k _ hmem'
    rw [habs] at this
    cases this
  have hlistEq : ∀ (m : LMap String (List String)) (key : String),
      RefOk m st.grants_by_id → ∀ k,
      ((if key = k then listAt m key ++ [derive_grant_id g0] else listAt m k).filter
          fun i => i != derive_grant_id g0) = listAt m k := by
    intro m key hRef k
    by_cases hk : key = k
    · subst hk
      rw [if_pos rfl, List.filter_append]
      have hone : (listAt m key).filter (fun i => i != derive_grant_id g0) =
          listAt m key :=
        List.filter_eq_self.mpr fun a ha => by
          simp only [bne_iff_ne, ne_eq]
          intro hav
          subst hav
          exact hidnot m hRef key ha
      have htwo : ([derive_grant_id g0].filter fun i => i != derive_grant_id g0) =
          [] := by simp
      rw [hone, htwo, List.append_nil]
    · rw [if_neg hk]
      exact List.filter_eq_self.mpr fun a ha => by
        simp only [bne_iff_ne, ne_eq]
        intro hav
        subst hav
        exact hidnot m hRef k ha
  have hLo : ∀ k, listAt st2.grant_ids_by_owner k = listAt st.grant_ids_by_owner k := by
    intro k
    rw [hlo2 k, hlist1o k]
    exact hlistEq _ g0.owner hRo k
  have hLg : ∀ k, listAt st2.grant_ids_by_grantee k =
      listAt st.grant_ids_by_grantee k := by
    intro k
    rw [hlg2 k, hlist1g k]
    exact hlistEq _ g0.grantee hRg k
  have hLd : ∀ k, listAt st2.grant_ids_by_data_id k =
      listAt st.grant_ids_by_data_id k := by
    intro k
    rw [hld2 k, hlist1d k]
    exact hlistEq _ g0.data_id hRd k
  have hfind : ∀ o gr d, find_grants st2 o gr d = find_grants st o gr d :=
    find_grants_congr hstoreEq hLo hLg hLd
  exact ⟨st1, st2, h1, h2, hfind, fun gr d => hfind none (some gr) (some d)⟩

/-- Witness for C9: round-tripping the grant (alice.near, pk-eve, A3,
locked_until 5) through the empty registry with the clock at 10. -/
theorem C9_witness :
    ∃ st1 st2,
      insert_grant FractalRegistry.default "alice.near" "pk-eve" "A3" (some 5) =
        Except.ok st1 ∧
      delete_grant st1 "alice.near" 10 "pk-eve" "A3" (some 5) = Except.ok st2 ∧
      (∀ o gr d, find_grants st2 o gr d = find_grants FractalRegistry.default o gr d) ∧
      (∀ gr d, grants_for st2 gr d = grants_for FractalRegistry.default gr d) :=
  C9_round_trip
    { owner := "alice.near", grantee := "pk-eve", data_id := "A3", locked_until := 5 }
    10 regInv_default rfl (by decide) (by decide)
